import Mathlib

/-!
Shallow embedding of `confidentlearning/classification.py` (the `RankPruning`
class: `__init__`, `fit`, `predict`, `predict_proba`).

External collaborators (the pluggable classifier, the cross-validated
estimators from `latent_estimation`, and the pruning engine) are modelled as
an explicit environment of functions, and every externally visible side
effect (the `np.random.seed` call, each estimator invocation, the final
classifier training) is recorded in an effect trace returned alongside the
result.  Numpy floats are modelled as rationals; the single place where IEEE
infinity matters (`1.0 / noise_matrix[k][k]`) uses `Option ℚ` with `none`
standing for the infinite value.
-/

namespace Confident

/-- The opaque state of the pluggable external classifier. -/
abbrev Clf := ℕ

/-- One feature row (opaque to the core; passed through to the classifier). -/
abbrev Feat := List ℚ

/-- A numeric matrix, as a list of rows. -/
abbrev Mat := List (List ℚ)

/-- A numpy float that is either finite (`some q`) or the infinity produced
by dividing by zero (`none`). -/
abbrev WQ := Option ℚ

/-- Entry `m[i][j]`, defaulting to `0` out of range. -/
def Mat.entry (m : Mat) (i j : ℕ) : ℚ := (m.getD i []).getD j 0

/-- `np.trace`: the sum of the diagonal entries `m[i][i]` for
`i < min(rows, cols)`. -/
def npTrace (m : Mat) : ℚ :=
  ((List.range (min m.length (m.headD []).length)).map (fun i => Mat.entry m i i)).sum

/-- `1.0 / d` in numpy float arithmetic: `none` models the infinite value
produced when `d = 0`. -/
def npDiv1 (d : ℚ) : WQ := if d = 0 then none else some (1 / d)

/-- Numpy boolean indexing `xs[mask]`: keep the positions where the mask is
`true`. -/
def npBoolIndex {α : Type} (xs : List α) (mask : List Bool) : List α :=
  (xs.zip mask).filterMap (fun p => if p.2 then some p.1 else none)

/-- Modelled from the spec: `confidentlearning.util.value_counts` is not under
`src/`.  The spec's data model defines the class prior vector as the
empirical count of each label `0 .. K-1` (K = number of distinct observed
labels), so `value_counts` returns those per-class counts. -/
def value_counts (s : List ℕ) : List ℕ :=
  (List.range s.dedup.length).map (fun k => s.count k)

/-- The empirical class prior vector `ps = value_counts(s) / len(s)`. -/
def empiricalPs (s : List ℕ) : List ℚ :=
  (value_counts s).map (fun c => (c : ℚ) / (s.length : ℚ))

/-- Modelled from the spec: `confidentlearning.util.assert_inputs_are_valid`
is not under `src/`.  The spec requires basic input validation: the feature
matrix and label vector must have the same number of rows, a supplied
probability matrix must have one row per example, and the label encoding
must be dense (labels are exactly `0 .. K-1` with no skipped value). -/
def assert_inputs_are_valid (X : List Feat) (s : List ℕ) (psx : Option Mat) : Bool :=
  decide (X.length = s.length) &&
  (match psx with
   | none => true
   | some p => decide (p.length = s.length)) &&
  s.all (fun x => decide (x < s.dedup.length))

/-- The matrix with row `i` and column `j` deleted. -/
def Mat.minor (m : Mat) (i j : ℕ) : Mat :=
  (m.eraseIdx i).map (fun row => row.eraseIdx j)

/-- Laplace expansion of the determinant along the first row, with the
matrix dimension as structural fuel. -/
def detAux : ℕ → Mat → ℚ
  | 0, _ => 1
  | n + 1, m =>
      ((List.range (n + 1)).map
        (fun j => (-1 : ℚ) ^ j * Mat.entry m 0 j * detAux n (Mat.minor m 0 j))).sum

/-- Determinant of a square matrix given as a list of rows. -/
def Mat.det (m : Mat) : ℚ := detAux m.length m

/-- Replace column `j` of the matrix with the vector `v`. -/
def Mat.setCol (m : Mat) (j : ℕ) (v : List ℚ) : Mat :=
  (List.range m.length).map (fun i => (m.getD i []).set j (v.getD i 0))

/-- Solve the linear system `m · x = b` by Cramer's rule, returning `b`
unchanged when the matrix is singular. -/
def solveLinear (m : Mat) (b : List ℚ) : List ℚ :=
  let d := Mat.det m
  if d = 0 then b
  else (List.range m.length).map (fun j => Mat.det (Mat.setCol m j b) / d)

/-- Modelled from the spec: `latent_algebra.compute_py_inv_noise_matrix` is
not under `src/`.  Following the spec's algebraic relations, the true prior
`py` satisfies `noise_matrix · py = ps`, and the inverse noise matrix comes
from the Bayes relation through the priors:
`inverse_noise_matrix[y][s] = noise_matrix[s][y] * py[y] / ps[s]`.
Returns the pair `(py, inverse_noise_matrix)`. -/
def compute_py_inv_noise_matrix (ps : List ℚ) (nm : Mat) : List ℚ × Mat :=
  let py := solveLinear nm ps
  let K := nm.length
  (py,
   (List.range K).map (fun y => (List.range K).map (fun sIdx =>
      Mat.entry nm sIdx y * py.getD y 0 / ps.getD sIdx 0)))

/-- Modelled from the spec: `latent_algebra.compute_noise_matrix_from_inverse`
is not under `src/`.  Following the spec's closed form `py = inverse · ps`
and the Bayes relation through the priors:
`noise_matrix[s][y] = inverse_noise_matrix[y][s] * ps[s] / py[y]`. -/
def compute_noise_matrix_from_inverse (ps : List ℚ) (inm : Mat) : Mat :=
  let K := inm.length
  let py := (List.range K).map (fun y =>
    ((List.range K).map (fun sIdx => Mat.entry inm y sIdx * ps.getD sIdx 0)).sum)
  (List.range K).map (fun sIdx => (List.range K).map (fun y =>
    Mat.entry inm y sIdx * ps.getD sIdx 0 / py.getD y 0))

/-- Modelled from the spec: `confidentlearning.util.remove_noise_from_class`
is not under `src/`.  The spec says the declared noise-free class's
noise-matrix column is zeroed off the diagonal, so that column becomes an
identity column; all other columns are unchanged. -/
def remove_noise_from_class (m : Mat) (c : ℕ) : Mat :=
  (List.range m.length).map (fun i =>
    (List.range (m.getD i []).length).map (fun j =>
      if j = c then (if i = c then (1 : ℚ) else 0) else Mat.entry m i j))

/-- The externally visible side effects of the orchestrator. -/
inductive Effect where
  | npSeed (v : ℤ)
  | estimatePyNmCv
  | estimateFromProb
  | estimateCvProba
  | pruneCall
  | clfFinalFit
deriving DecidableEq

/-- The error outcomes of `fit` (the raise sites in `classification.py`). -/
inductive Err where
  | inputValidation
  | invalidNoiseMatrix
deriving DecidableEq

/-- The environment of external collaborators `fit` orchestrates: the
pluggable classifier and the unseen estimation / pruning modules. -/
structure Env where
  clfFit : Clf → List Feat → List ℕ → List WQ → Clf
  clfPredict : Clf → List Feat → List ℕ
  clfPredictProba : Clf → List Feat → Mat
  estimatePyNmCv : List Feat → List ℕ → Clf → ℕ → Option (List ℚ) → Bool → Option ℤ →
      List ℚ × Mat × Mat × Mat × Mat
  estimateFromProb : List ℕ → Mat → Option (List ℚ) → Bool →
      List ℚ × Mat × Mat × Mat
  estimateCvProba : List Feat → List ℕ → Clf → ℕ → Option ℤ → Mat
  getNoiseIndices : List ℕ → Mat → Mat → Option Mat → String → String → Bool → List Bool

/-- The instance state of a `RankPruning` object.  Attributes that Python
only creates during `fit` are `Option`s, `none` meaning "never assigned";
`confident_joint` can additionally be assigned the Python value `None`
(`some none`). -/
structure RP where
  clf : Clf
  seed : Option ℤ
  K : Option ℕ
  ps : Option (List ℚ)
  py : Option (List ℚ)
  noise_matrix : Option Mat
  inverse_noise_matrix : Option Mat
  confident_joint : Option (Option Mat)
  noise_mask : Option (List Bool)
  sample_weight : Option (List WQ)
deriving DecidableEq

/-- The default classifier constructed when none is supplied
(`LogisticRegression()`), as an opaque fresh classifier state. -/
def logreg : Clf := 0

/-- `RankPruning.__init__`: store the classifier (defaulting to logistic
regression) and the seed, and call `np.random.seed(seed)` iff a seed was
given.  The effect list records the global-RNG mutation. -/
def RankPruning.init (clf : Option Clf) (seed : Option ℤ) : RP × List Effect :=
  let c := match clf with | none => logreg | some c0 => c0
  match seed with
  | none => (⟨c, none, none, none, none, none, none, none, none, none⟩, [])
  | some v => (⟨c, some v, none, none, none, none, none, none, none, none⟩,
               [Effect.npSeed v])

/-- True iff the matrix was supplied and its trace is at most 1
(the condition under which `fit` raises). -/
def traceLeOne (m : Option Mat) : Bool :=
  match m with
  | none => false
  | some mm => decide (npTrace mm ≤ 1)

/-- The sample-weight loop of `fit`: start from `np.ones(len(s_pruned))` and,
for each class `k` in `range(K)`, overwrite the positions with
`s_pruned == k` by `1.0 / noise_matrix[k][k]`. -/
def assignWeights (nm : Mat) (K : ℕ) (sp : List ℕ) : List WQ :=
  (List.range K).foldl
    (fun w k =>
      List.zipWith (fun si wi => if si = k then npDiv1 (Mat.entry nm k k) else wi) sp w)
    (sp.map (fun _ => some 1))

/-- `RankPruning.fit`, translated statement by statement from
`classification.py` lines 166-248.  Returns the effect trace together with
either an error or the updated instance state paired with the returned
value (`self.clf`). -/
def RankPruning.fit (env : Env) (rp : RP) (X : List Feat) (s : List ℕ)
    (cv_n_folds : ℕ) (pulearning : Option ℕ) (psx : Option Mat)
    (thresholds : Option (List ℚ)) (noise_matrix : Option Mat)
    (inverse_noise_matrix : Option Mat) (prune_method : String)
    (prune_count_method : String) (converge_latent_estimates : Bool) :
    List Effect × Except Err (RP × Clf) :=
  if assert_inputs_are_valid X s psx = true then
    if traceLeOne noise_matrix = true then
      ([], Except.error Err.invalidNoiseMatrix)
    else if traceLeOne inverse_noise_matrix = true then
      ([], Except.error Err.invalidNoiseMatrix)
    else
      let K := s.dedup.length
      let ps := empiricalPs s
      let rp0 : RP := { rp with K := some K, ps := some ps, confident_joint := some none }
      let rp1 : RP :=
        match noise_matrix with
        | some nm =>
            match inverse_noise_matrix with
            | none =>
                let r := compute_py_inv_noise_matrix ps nm
                { rp0 with noise_matrix := some nm, py := some r.1,
                           inverse_noise_matrix := some r.2 }
            | some _ => { rp0 with noise_matrix := some nm }
        | none => rp0
      let rp2 : RP :=
        match inverse_noise_matrix with
        | some inm =>
            match noise_matrix with
            | none =>
                { rp1 with inverse_noise_matrix := some inm,
                           noise_matrix := some (compute_noise_matrix_from_inverse ps inm) }
            | some _ => { rp1 with inverse_noise_matrix := some inm }
        | none => rp1
      let est : RP × Option Mat × List Effect :=
        match noise_matrix, inverse_noise_matrix with
        | none, none =>
            match psx with
            | none =>
                let r := env.estimatePyNmCv X s rp.clf cv_n_folds thresholds
                           converge_latent_estimates rp.seed
                ({ rp2 with py := some r.1, noise_matrix := some r.2.1,
                            inverse_noise_matrix := some r.2.2.1,
                            confident_joint := some (some r.2.2.2.1) },
                 some r.2.2.2.2, [Effect.estimatePyNmCv])
            | some p =>
                let r := env.estimateFromProb s p thresholds converge_latent_estimates
                ({ rp2 with py := some r.1, noise_matrix := some r.2.1,
                            inverse_noise_matrix := some r.2.2.1,
                            confident_joint := some (some r.2.2.2) },
                 some p, [Effect.estimateFromProb])
        | _, _ => (rp2, psx, [])
      let rp3 := est.1
      let cvp : Mat × List Effect :=
        match est.2.1 with
        | none => (env.estimateCvProba X s rp.clf cv_n_folds rp.seed,
                   [Effect.estimateCvProba])
        | some p => (p, [])
      let rp4 : RP :=
        match pulearning with
        | none => rp3
        | some c =>
            let adjusted := remove_noise_from_class (rp3.noise_matrix.getD []) c
            { rp3 with noise_matrix := some adjusted }
      let mask := env.getNoiseIndices s cvp.1 (rp4.inverse_noise_matrix.getD [])
        (rp4.confident_joint.getD none) prune_method prune_count_method
        converge_latent_estimates
      let rp5 : RP := { rp4 with noise_mask := some mask }
      let xmask := mask.map (fun b => !b)
      let X_pruned := npBoolIndex X xmask
      let s_pruned := npBoolIndex s xmask
      let w := assignWeights (rp5.noise_matrix.getD []) (rp5.K.getD 0) s_pruned
      let rp6 : RP := { rp5 with sample_weight := some w }
      let clf1 := env.clfFit rp6.clf X_pruned s_pruned w
      let rp7 : RP := { rp6 with clf := clf1 }
      (est.2.2 ++ cvp.2 ++ [Effect.pruneCall, Effect.clfFinalFit],
       Except.ok (rp7, clf1))
  else ([], Except.error Err.inputValidation)

/-- `RankPruning.predict`: delegate to the stored classifier. -/
def RankPruning.predict (env : Env) (rp : RP) (X : List Feat) : List ℕ :=
  env.clfPredict rp.clf X

/-- `RankPruning.predict_proba`: delegate to the stored classifier. -/
def RankPruning.predict_proba (env : Env) (rp : RP) (X : List Feat) : Mat :=
  env.clfPredictProba rp.clf X

/-! Concrete instantiations used to witness the theorems below. -/

/-- A concrete environment: a classifier whose state counts training calls,
estimators returning empty artifacts, and a pruner that keeps every
example. -/
def env0 : Env :=
  ⟨fun c _ _ _ => c + 1,
   fun _ X => X.map (fun _ => 0),
   fun _ X => X.map (fun _ => []),
   fun _ _ _ _ _ _ _ => ([], [], [], [], []),
   fun _ _ _ _ => ([], [], [], []),
   fun _ _ _ _ _ => [],
   fun s _ _ _ _ _ _ => s.map (fun _ => false)⟩

/-- A freshly constructed instance (no seed, classifier state `0`). -/
def rp0 : RP := ⟨0, none, none, none, none, none, none, none, none, none⟩

/-- Two one-feature examples. -/
def X2 : List Feat := [[0], [1]]

/-- Two noisy labels, one per class. -/
def s2 : List ℕ := [0, 1]

/-- A supplied out-of-fold probability matrix for `X2`. -/
def px2 : Mat := [[1, 0], [0, 1]]

/-- A degenerate noise matrix: its trace is exactly 1. -/
def nmBad : Mat := [[1, 0], [0, 0]]

/-- A noise matrix whose trace exceeds 1 but whose class-1 diagonal entry
is zero. -/
def nmZero : Mat := [[2, 1], [1, 0]]

/-- A matrix passing the trace check with nonzero diagonal (trace 5). -/
def nmGood : Mat := [[2, 0], [0, 3]]

/-- A matrix passing the trace check, used as a supplied inverse noise
matrix (trace 7). -/
def imGood : Mat := [[3, 0], [0, 4]]

end Confident

namespace Confident

/-! Helper lemmas about the embedded operations. -/

lemma assignWeights_length (nm : Mat) (K : ℕ) (sp : List ℕ) :
    (assignWeights nm K sp).length = sp.length := by
  unfold assignWeights
  have h : ∀ (l : List ℕ) (w : List WQ), w.length = sp.length →
      (l.foldl (fun w k =>
        List.zipWith (fun si wi => if si = k then npDiv1 (Mat.entry nm k k) else wi) sp w)
        w).length = sp.length := by
    intro l
    induction l with
    | nil => intro w hw; simpa using hw
    | cons a t ih =>
        intro w hw
        simp only [List.foldl_cons]
        exact ih _ (by simp [hw])
  exact h _ _ (by simp)

lemma assignWeights_succ (nm : Mat) (K : ℕ) (sp : List ℕ) :
    assignWeights nm (K + 1) sp =
      List.zipWith (fun si wi => if si = K then npDiv1 (Mat.entry nm K K) else wi) sp
        (assignWeights nm K sp) := by
  unfold assignWeights
  rw [List.range_succ, List.foldl_append, List.foldl_cons, List.foldl_nil]

lemma assignWeights_getElem? (nm : Mat) (sp : List ℕ) (i : ℕ) (hi : i < sp.length)
    (K : ℕ) :
    (assignWeights nm K sp)[i]? =
      some (if sp.getD i 0 < K then npDiv1 (Mat.entry nm (sp.getD i 0) (sp.getD i 0))
            else some 1) := by
  have hgd : sp.getD i 0 = sp[i] := List.getD_eq_getElem sp 0 hi
  rw [hgd]
  induction K with
  | zero =>
      simp [assignWeights, List.getElem?_replicate, hi]
  | succ K ih =>
      rw [assignWeights_succ, List.getElem?_zipWith, ih, List.getElem?_eq_getElem hi]
      by_cases hk : sp[i] = K
      · simp [hk]
      · by_cases hlt : sp[i] < K
        · have hlt2 : sp[i] < K + 1 := Nat.lt_succ_of_lt hlt
          simp [hk, hlt, hlt2]
        · have hlt2 : ¬ sp[i] < K + 1 := by omega
          simp [hk, hlt, hlt2]

lemma npBoolIndex_length {α : Type} :
    ∀ (xs : List α) (mask : List Bool), xs.length = mask.length →
      (npBoolIndex xs mask).length = mask.count true := by
  intro xs
  induction xs with
  | nil =>
      intro mask h
      cases mask with
      | nil => simp [npBoolIndex]
      | cons b t => simp at h
  | cons x xt ih =>
      intro mask h
      cases mask with
      | nil => simp at h
      | cons b t =>
          have ht : (npBoolIndex xt t).length = t.count true := ih t (by simpa using h)
          cases b <;> (simp [npBoolIndex, List.count_cons] at ht ⊢; try omega)

lemma mem_npBoolIndex {α : Type} {x : α} {xs : List α} {mask : List Bool}
    (h : x ∈ npBoolIndex xs mask) : x ∈ xs := by
  unfold npBoolIndex at h
  obtain ⟨⟨a, b⟩, hmem, hab⟩ := List.mem_filterMap.1 h
  by_cases hb : b = true
  · subst hb
    simp at hab
    subst hab
    exact (List.of_mem_zip hmem).1
  · simp [hb] at hab

lemma count_true_map_not (l : List Bool) :
    (l.map (fun b => !b)).count true = l.length - l.count true := by
  induction l with
  | nil => simp
  | cons b t ih =>
      have hle : t.count true ≤ t.length := List.count_le_length _ _
      cases b <;> (simp [List.count_cons, ih]; try omega)

lemma remove_noise_entry (m : Mat) (c i : ℕ)
    (hi : i < (remove_noise_from_class m c).length)
    (hc : c < ((remove_noise_from_class m c).getD i []).length) :
    Mat.entry (remove_noise_from_class m c) i c = if i = c then 1 else 0 := by
  unfold remove_noise_from_class at hi hc ⊢
  simp only [List.length_map, List.length_range] at hi
  have hrow : ((List.range m.length).map (fun i0 =>
      (List.range (m.getD i0 []).length).map (fun j =>
        if j = c then (if i0 = c then (1 : ℚ) else 0) else Mat.entry m i0 j))).getD i []
      = (List.range (m.getD i []).length).map (fun j =>
        if j = c then (if i = c then (1 : ℚ) else 0) else Mat.entry m i j) := by
    rw [List.getD_eq_getElem _ _ (by simpa using hi)]
    simp
  rw [hrow] at hc
  simp only [List.length_map, List.length_range] at hc
  rw [Mat.entry, hrow, List.getD_eq_getElem _ _ (by simpa using hc)]
  simp

lemma fit_success_fields (env : Env) (rp : RP) (X : List Feat) (s : List ℕ)
    (cv : ℕ) (pul : Option ℕ) (psx : Option Mat) (th : Option (List ℚ))
    (nm? inm? : Option Mat) (pm pcm : String) (conv : Bool)
    (hv : assert_inputs_are_valid X s psx = true)
    (h1 : traceLeOne nm? = false) (h2 : traceLeOne inm? = false) :
    ∃ rpF mask,
      (RankPruning.fit env rp X s cv pul psx th nm? inm? pm pcm conv).2
          = Except.ok (rpF, rpF.clf) ∧
      rpF.K = some s.dedup.length ∧
      rpF.noise_mask = some mask ∧
      (∃ psxU inmU cjU, mask = env.getNoiseIndices s psxU inmU cjU pm pcm conv) ∧
      rpF.sample_weight = some (assignWeights (rpF.noise_matrix.getD [])
          s.dedup.length (npBoolIndex s (mask.map (fun b => !b)))) ∧
      rpF.clf = env.clfFit rp.clf (npBoolIndex X (mask.map (fun b => !b)))
          (npBoolIndex s (mask.map (fun b => !b)))
          (assignWeights (rpF.noise_matrix.getD []) s.dedup.length
            (npBoolIndex s (mask.map (fun b => !b)))) := by
  rcases nm? with _ | nm <;> rcases inm? with _ | inm <;>
    rcases psx with _ | px <;> rcases pul with _ | c <;>
    simp only [RankPruning.fit, hv, h1, h2, reduceIte] <;>
    exact ⟨_, _, rfl, rfl, rfl, ⟨_, _, _, rfl⟩, rfl, rfl⟩

end Confident

namespace Confident

/-! Evaluation lemmas for the concrete matrices. -/

lemma npTrace_nmBad : npTrace nmBad = 1 := by
  norm_num [npTrace, nmBad, Mat.entry, List.range_succ]

lemma npTrace_nmZero : npTrace nmZero = 2 := by
  norm_num [npTrace, nmZero, Mat.entry, List.range_succ]

lemma npTrace_nmGood : npTrace nmGood = 5 := by
  norm_num [npTrace, nmGood, Mat.entry, List.range_succ]

lemma npTrace_imGood : npTrace imGood = 7 := by
  norm_num [npTrace, imGood, Mat.entry, List.range_succ]

lemma traceLeOne_nmZero : traceLeOne (some nmZero) = false := by
  simp only [traceLeOne, npTrace_nmZero]
  norm_num

lemma traceLeOne_nmGood : traceLeOne (some nmGood) = false := by
  simp only [traceLeOne, npTrace_nmGood]
  norm_num

lemma traceLeOne_imGood : traceLeOne (some imGood) = false := by
  simp only [traceLeOne, npTrace_imGood]
  norm_num

lemma traceLeOne_none : traceLeOne none = false := rfl

end Confident

namespace Confident

/-- C1: if a noise matrix or an inverse noise matrix is supplied whose trace
is at most 1, `fit` (on otherwise valid inputs) raises the
invalid-noise-matrix error with an empty effect trace: no fold computation,
no estimator call and no classifier training has happened, so the supplied
classifier's state is unchanged on that error path. -/
theorem fit_invalid_trace_errors_before_work
    (env : Env) (rp : RP) (X : List Feat) (s : List ℕ) (cv : ℕ) (pul : Option ℕ)
    (psx : Option Mat) (th : Option (List ℚ)) (nm? inm? : Option Mat)
    (pm pcm : String) (conv : Bool)
    (hv : assert_inputs_are_valid X s psx = true)
    (hbad : (∃ nm, nm? = some nm ∧ npTrace nm ≤ 1) ∨
            (∃ im, inm? = some im ∧ npTrace im ≤ 1)) :
    RankPruning.fit env rp X s cv pul psx th nm? inm? pm pcm conv
      = ([], Except.error Err.invalidNoiseMatrix) := by
  rcases hbad with ⟨nm, hnm, hle⟩ | ⟨im, him, hle⟩
  · subst hnm
    have ht : traceLeOne (some nm) = true := by simp [traceLeOne, hle]
    simp [RankPruning.fit, hv, ht]
  · subst him
    have ht : traceLeOne (some im) = true := by simp [traceLeOne, hle]
    cases hn : traceLeOne nm?
    · simp [RankPruning.fit, hv, hn, ht]
    · simp [RankPruning.fit, hv, hn]

/-- C1 witness: a concrete noise matrix of trace exactly 1 makes `fit` fail
with the invalid-noise-matrix error and an empty effect trace. -/
theorem fit_invalid_trace_errors_before_work_witness :
    RankPruning.fit env0 rp0 X2 s2 5 none none none (some nmBad) none
      "prune_by_noise_rate" "inverse_nm_dot_s" false
      = ([], Except.error Err.invalidNoiseMatrix) :=
  fit_invalid_trace_errors_before_work env0 rp0 X2 s2 5 none none none
    (some nmBad) none "prune_by_noise_rate" "inverse_nm_dot_s" false
    (by decide) (Or.inl ⟨nmBad, rfl, le_of_eq npTrace_nmBad⟩)

/-- C9: when neither a noise matrix nor an inverse noise matrix is supplied,
the trace validation is never applied to the internally estimated matrices:
`fit` never returns the invalid-noise-matrix error on those paths, whatever
matrices the estimators produce. -/
theorem fit_estimated_path_never_trace_error
    (env : Env) (rp : RP) (X : List Feat) (s : List ℕ) (cv : ℕ) (pul : Option ℕ)
    (psx : Option Mat) (th : Option (List ℚ)) (pm pcm : String) (conv : Bool) :
    (RankPruning.fit env rp X s cv pul psx th none none pm pcm conv).2
      ≠ Except.error Err.invalidNoiseMatrix := by
  by_cases hv : assert_inputs_are_valid X s psx = true
  · rcases psx with _ | px <;> rcases pul with _ | c <;>
      simp [RankPruning.fit, hv, traceLeOne]
  · simp [RankPruning.fit, hv]

/-- C10: constructing with a seed performs exactly one global
`np.random.seed` call; constructing without a seed leaves the global random
state untouched; and `fit` itself never reseeds the global generator (no
seeding effect ever appears in its trace). -/
theorem init_seeds_once_and_fit_never_reseeds :
    (∀ c v, (RankPruning.init c (some v)).2 = [Effect.npSeed v]) ∧
    (∀ c, (RankPruning.init c none).2 = []) ∧
    (∀ env rp X s cv pul psx th nm? inm? pm pcm conv v,
      Effect.npSeed v ∉
        (RankPruning.fit env rp X s cv pul psx th nm? inm? pm pcm conv).1) := by
  refine ⟨fun c v => rfl, fun c => rfl, ?_⟩
  intro env rp X s cv pul psx th nm? inm? pm pcm conv v
  by_cases hv : assert_inputs_are_valid X s psx = true
  · by_cases h1 : traceLeOne nm? = true
    · simp [RankPruning.fit, hv, h1]
    · have h1f : traceLeOne nm? = false := by revert h1; cases traceLeOne nm? <;> simp
      by_cases h2 : traceLeOne inm? = true
      · simp [RankPruning.fit, hv, h1f, h2]
      · have h2f : traceLeOne inm? = false := by revert h2; cases traceLeOne inm? <;> simp
        rcases nm? with _ | nm <;> rcases inm? with _ | inm <;>
          rcases psx with _ | px <;> rcases pul with _ | c <;>
          simp [RankPruning.fit, hv, h1f, h2f]
  · simp [RankPruning.fit, hv]

end Confident

namespace Confident

/-- C2 counterexample: with a supplied noise matrix whose class-1 diagonal
entry is zero (trace still exceeds 1) and a pruner that keeps every example,
`fit` does NOT fail: it returns successfully and the surviving class-1
example receives the infinite sample weight (`none`), produced by the
unguarded division `1.0 / noise_matrix[1][1]`. -/
theorem fit_zero_diag_counterexample :
    (Except.toOption (RankPruning.fit env0 rp0 X2 s2 5 none (some px2) none
        (some nmZero) (some imGood) "prune_by_noise_rate" "inverse_nm_dot_s" false).2).map
      (fun r => r.1.sample_weight)
      = some (some [some (1/2 : ℚ), none]) := by
  have hv : assert_inputs_are_valid X2 s2 (some px2) = true := by decide
  simp only [RankPruning.fit, hv, traceLeOne_nmZero, traceLeOne_imGood, reduceIte]
  simp [env0, s2, X2, assignWeights, List.range_succ, npBoolIndex, Except.toOption]
  norm_num [Mat.entry, nmZero, npDiv1]

/-- C2 amended: when a class `k` that survives pruning has
`noise_matrix[k][k] = 0`, `fit` does not raise any error; it succeeds and
the sample weight of every kept example of class `k` is the infinite value
(`none`) produced by the unguarded division. -/
theorem fit_zero_diag_gives_infinite_weight
    (env : Env) (rp : RP) (X : List Feat) (s : List ℕ) (cv : ℕ) (pul : Option ℕ)
    (psx : Option Mat) (th : Option (List ℚ)) (nm? inm? : Option Mat)
    (pm pcm : String) (conv : Bool)
    (hv : assert_inputs_are_valid X s psx = true)
    (h1 : traceLeOne nm? = false) (h2 : traceLeOne inm? = false) :
    ∃ rpF mask w,
      (RankPruning.fit env rp X s cv pul psx th nm? inm? pm pcm conv).2
        = Except.ok (rpF, rpF.clf) ∧
      rpF.noise_mask = some mask ∧
      rpF.sample_weight = some w ∧
      ∀ i, i < (npBoolIndex s (mask.map (fun b => !b))).length →
        (npBoolIndex s (mask.map (fun b => !b))).getD i 0 < s.dedup.length →
        Mat.entry (rpF.noise_matrix.getD [])
            ((npBoolIndex s (mask.map (fun b => !b))).getD i 0)
            ((npBoolIndex s (mask.map (fun b => !b))).getD i 0) = 0 →
        w.getD i (some 0) = none := by
  obtain ⟨rpF, mask, hok, hK, hmask, hprune, hw, hclf⟩ :=
    fit_success_fields env rp X s cv pul psx th nm? inm? pm pcm conv hv h1 h2
  refine ⟨rpF, mask, _, hok, hmask, hw, ?_⟩
  intro i hi hk hz
  have hq := assignWeights_getElem? (rpF.noise_matrix.getD [])
    (npBoolIndex s (mask.map (fun b => !b))) i hi s.dedup.length
  rw [List.getD_eq_getElem?_getD, hq, Option.getD_some, if_pos hk, hz]
  simp [npDiv1]

/-- C2 amended witness: the concrete zero-diagonal run of the amended
theorem. -/
theorem fit_zero_diag_gives_infinite_weight_witness :
    ∃ rpF mask w,
      (RankPruning.fit env0 rp0 X2 s2 5 none (some px2) none (some nmZero)
          (some imGood) "prune_by_noise_rate" "inverse_nm_dot_s" false).2
        = Except.ok (rpF, rpF.clf) ∧
      rpF.noise_mask = some mask ∧
      rpF.sample_weight = some w ∧
      ∀ i, i < (npBoolIndex s2 (mask.map (fun b => !b))).length →
        (npBoolIndex s2 (mask.map (fun b => !b))).getD i 0 < s2.dedup.length →
        Mat.entry (rpF.noise_matrix.getD [])
            ((npBoolIndex s2 (mask.map (fun b => !b))).getD i 0)
            ((npBoolIndex s2 (mask.map (fun b => !b))).getD i 0) = 0 →
        w.getD i (some 0) = none :=
  fit_zero_diag_gives_infinite_weight env0 rp0 X2 s2 5 none (some px2) none
    (some nmZero) (some imGood) "prune_by_noise_rate" "inverse_nm_dot_s" false
    (by decide) traceLeOne_nmZero traceLeOne_imGood

/-- C3: on every successful `fit`, the final training delegated to the
external classifier uses exactly the examples whose noise-mask entry is
`false`; the sample-weight vector has length `N` minus the number of pruned
examples, and the weight of every kept example of observed class `k` (with
nonzero diagonal entry) is `1 / noise_matrix[k][k]`. -/
theorem fit_trains_on_unmasked_with_inverse_diag_weights
    (env : Env) (rp : RP) (X : List Feat) (s : List ℕ) (cv : ℕ) (pul : Option ℕ)
    (psx : Option Mat) (th : Option (List ℚ)) (nm? inm? : Option Mat)
    (pm pcm : String) (conv : Bool)
    (hv : assert_inputs_are_valid X s psx = true)
    (h1 : traceLeOne nm? = false) (h2 : traceLeOne inm? = false)
    (henv : ∀ a b c d e f g, (env.getNoiseIndices a b c d e f g).length = a.length) :
    ∃ rpF mask w,
      (RankPruning.fit env rp X s cv pul psx th nm? inm? pm pcm conv).2
        = Except.ok (rpF, rpF.clf) ∧
      rpF.noise_mask = some mask ∧
      rpF.sample_weight = some w ∧
      rpF.clf = env.clfFit rp.clf (npBoolIndex X (mask.map (fun b => !b)))
        (npBoolIndex s (mask.map (fun b => !b))) w ∧
      w.length = s.length - mask.count true ∧
      (∀ i, i < (npBoolIndex s (mask.map (fun b => !b))).length →
        Mat.entry (rpF.noise_matrix.getD [])
            ((npBoolIndex s (mask.map (fun b => !b))).getD i 0)
            ((npBoolIndex s (mask.map (fun b => !b))).getD i 0) ≠ 0 →
        w.getD i (some 0) = some (1 / Mat.entry (rpF.noise_matrix.getD [])
            ((npBoolIndex s (mask.map (fun b => !b))).getD i 0)
            ((npBoolIndex s (mask.map (fun b => !b))).getD i 0))) := by
  obtain ⟨rpF, mask, hok, hK, hmask, hprune, hw, hclf⟩ :=
    fit_success_fields env rp X s cv pul psx th nm? inm? pm pcm conv hv h1 h2
  have hmlen : mask.length = s.length := by
    obtain ⟨psxU, inmU, cjU, hm⟩ := hprune
    rw [hm, henv]
  have hxlen : s.length = (mask.map (fun b => !b)).length := by
    rw [List.length_map, hmlen]
  have hsplen : (npBoolIndex s (mask.map (fun b => !b))).length
      = s.length - mask.count true := by
    rw [npBoolIndex_length s _ hxlen, count_true_map_not, hmlen]
  have hdense : ∀ x ∈ s, x < s.dedup.length := by
    have hv2 := hv
    simp only [assert_inputs_are_valid, Bool.and_eq_true] at hv2
    intro x hx
    exact of_decide_eq_true (List.all_eq_true.mp hv2.2 x hx)
  refine ⟨rpF, mask, _, hok, hmask, hw, hclf, ?_, ?_⟩
  · rw [assignWeights_length, hsplen]
  · intro i hi hz
    have hkmem : (npBoolIndex s (mask.map (fun b => !b))).getD i 0
        ∈ npBoolIndex s (mask.map (fun b => !b)) := by
      rw [List.getD_eq_getElem _ _ hi]
      exact List.getElem_mem _
    have hk : (npBoolIndex s (mask.map (fun b => !b))).getD i 0 < s.dedup.length :=
      hdense _ (mem_npBoolIndex hkmem)
    have hq := assignWeights_getElem? (rpF.noise_matrix.getD [])
      (npBoolIndex s (mask.map (fun b => !b))) i hi s.dedup.length
    rw [List.getD_eq_getElem?_getD, hq, Option.getD_some, if_pos hk]
    simp only [npDiv1]
    rw [if_neg hz]

/-- C3 witness: the concrete run of the training/reweighting theorem with a
length-preserving pruner. -/
theorem fit_trains_on_unmasked_witness :
    ∃ rpF mask w,
      (RankPruning.fit env0 rp0 X2 s2 5 none (some px2) none (some nmGood)
          (some imGood) "prune_by_noise_rate" "inverse_nm_dot_s" false).2
        = Except.ok (rpF, rpF.clf) ∧
      rpF.noise_mask = some mask ∧
      rpF.sample_weight = some w ∧
      rpF.clf = env0.clfFit rp0.clf (npBoolIndex X2 (mask.map (fun b => !b)))
        (npBoolIndex s2 (mask.map (fun b => !b))) w ∧
      w.length = s2.length - mask.count true ∧
      (∀ i, i < (npBoolIndex s2 (mask.map (fun b => !b))).length →
        Mat.entry (rpF.noise_matrix.getD [])
            ((npBoolIndex s2 (mask.map (fun b => !b))).getD i 0)
            ((npBoolIndex s2 (mask.map (fun b => !b))).getD i 0) ≠ 0 →
        w.getD i (some 0) = some (1 / Mat.entry (rpF.noise_matrix.getD [])
            ((npBoolIndex s2 (mask.map (fun b => !b))).getD i 0)
            ((npBoolIndex s2 (mask.map (fun b => !b))).getD i 0))) :=
  fit_trains_on_unmasked_with_inverse_diag_weights env0 rp0 X2 s2 5 none
    (some px2) none (some nmGood) (some imGood) "prune_by_noise_rate"
    "inverse_nm_dot_s" false (by decide) traceLeOne_nmGood traceLeOne_imGood
    (fun a b c d e f g => by simp [env0])

end Confident

namespace Confident

/-- A stale instance state: same classifier and seed as `rp0` but with
leftover artifacts from a hypothetical earlier `fit` call. -/
def rpStale : RP :=
  ⟨0, none, some 7, some [5], some [5], some [[9]], some [[9]],
   some (some [[9]]), some [true], some [some 9]⟩

/-- C4: with `pulearning = None`, a supplied noise matrix (resp. inverse
noise matrix) is stored directly; a missing one is derived from the supplied
one and the empirical priors `ps` via the algebraic relation; when both are
supplied both are stored directly and nothing is derived (`py` is left
untouched).  In all these cases no confident-joint estimation effect occurs
and the stored confident joint is Python `None`. -/
theorem fit_supplied_matrices_used_directly
    (env : Env) (rp : RP) (X : List Feat) (s : List ℕ) (cv : ℕ)
    (psx : Option Mat) (th : Option (List ℚ)) (nm? inm? : Option Mat)
    (pm pcm : String) (conv : Bool)
    (hv : assert_inputs_are_valid X s psx = true)
    (h1 : traceLeOne nm? = false) (h2 : traceLeOne inm? = false)
    (hsup : nm? ≠ none ∨ inm? ≠ none) :
    ∃ rpF,
      (RankPruning.fit env rp X s cv none psx th nm? inm? pm pcm conv).2
        = Except.ok (rpF, rpF.clf) ∧
      rpF.noise_matrix = some (match nm?, inm? with
        | some nm, _ => nm
        | none, some im => compute_noise_matrix_from_inverse (empiricalPs s) im
        | none, none => []) ∧
      rpF.inverse_noise_matrix = some (match nm?, inm? with
        | _, some im => im
        | some nm, none => (compute_py_inv_noise_matrix (empiricalPs s) nm).2
        | none, none => []) ∧
      (nm? ≠ none → inm? ≠ none → rpF.py = rp.py) ∧
      rpF.confident_joint = some none ∧
      Effect.estimatePyNmCv ∉
        (RankPruning.fit env rp X s cv none psx th nm? inm? pm pcm conv).1 ∧
      Effect.estimateFromProb ∉
        (RankPruning.fit env rp X s cv none psx th nm? inm? pm pcm conv).1 := by
  rcases nm? with _ | nm <;> rcases inm? with _ | im
  · rcases hsup with h | h <;> exact absurd rfl h
  · rcases psx with _ | px <;>
      simp only [RankPruning.fit, hv, h1, h2, reduceIte] <;>
      exact ⟨_, rfl, rfl, rfl, fun h _ => absurd rfl h, rfl, by simp, by simp⟩
  · rcases psx with _ | px <;>
      simp only [RankPruning.fit, hv, h1, h2, reduceIte] <;>
      exact ⟨_, rfl, rfl, rfl, fun _ h => absurd rfl h, rfl, by simp, by simp⟩
  · rcases psx with _ | px <;>
      simp only [RankPruning.fit, hv, h1, h2, reduceIte] <;>
      exact ⟨_, rfl, rfl, rfl, fun _ _ => rfl, rfl, by simp, by simp⟩

/-- C4 witness: supplying only the noise matrix stores it directly and
derives the inverse from it and the empirical priors. -/
theorem fit_supplied_matrices_used_directly_witness :
    ∃ rpF,
      (RankPruning.fit env0 rp0 X2 s2 5 none (some px2) none (some nmGood) none
          "prune_by_noise_rate" "inverse_nm_dot_s" false).2
        = Except.ok (rpF, rpF.clf) ∧
      rpF.noise_matrix = some nmGood ∧
      rpF.inverse_noise_matrix
        = some ((compute_py_inv_noise_matrix (empiricalPs s2) nmGood).2) ∧
      (some nmGood ≠ (none : Option Mat) → (none : Option Mat) ≠ none →
        rpF.py = rp0.py) ∧
      rpF.confident_joint = some none ∧
      Effect.estimatePyNmCv ∉
        (RankPruning.fit env0 rp0 X2 s2 5 none (some px2) none (some nmGood) none
          "prune_by_noise_rate" "inverse_nm_dot_s" false).1 ∧
      Effect.estimateFromProb ∉
        (RankPruning.fit env0 rp0 X2 s2 5 none (some px2) none (some nmGood) none
          "prune_by_noise_rate" "inverse_nm_dot_s" false).1 :=
  fit_supplied_matrices_used_directly env0 rp0 X2 s2 5 (some px2) none
    (some nmGood) none "prune_by_noise_rate" "inverse_nm_dot_s" false
    (by decide) traceLeOne_nmGood traceLeOne_none (Or.inl (by simp))

/-- C5: with `pulearning = c`, the stored noise matrix after `fit` is the
pulearning-adjusted one, and its column `c` is exactly the identity column
(1 on the diagonal, 0 off it). -/
theorem fit_pulearning_identity_column
    (env : Env) (rp : RP) (X : List Feat) (s : List ℕ) (cv : ℕ) (c : ℕ)
    (psx : Option Mat) (th : Option (List ℚ)) (nm? inm? : Option Mat)
    (pm pcm : String) (conv : Bool)
    (hv : assert_inputs_are_valid X s psx = true)
    (h1 : traceLeOne nm? = false) (h2 : traceLeOne inm? = false) :
    ∃ rpF nmF,
      (RankPruning.fit env rp X s cv (some c) psx th nm? inm? pm pcm conv).2
        = Except.ok (rpF, rpF.clf) ∧
      rpF.noise_matrix = some nmF ∧
      (∃ m, nmF = remove_noise_from_class m c) ∧
      (∀ i, i < nmF.length → c < (nmF.getD i []).length →
        Mat.entry nmF i c = if i = c then 1 else 0) := by
  rcases nm? with _ | nm <;> rcases inm? with _ | im <;> rcases psx with _ | px <;>
    simp only [RankPruning.fit, hv, h1, h2, reduceIte] <;>
    exact ⟨_, _, rfl, rfl, ⟨_, rfl⟩, fun i hi hc => remove_noise_entry _ _ _ hi hc⟩

/-- C5 witness: PU-learning with class 0 declared noise-free on a concrete
run. -/
theorem fit_pulearning_identity_column_witness :
    ∃ rpF nmF,
      (RankPruning.fit env0 rp0 X2 s2 5 (some 0) (some px2) none (some nmGood)
          (some imGood) "prune_by_noise_rate" "inverse_nm_dot_s" false).2
        = Except.ok (rpF, rpF.clf) ∧
      rpF.noise_matrix = some nmF ∧
      (∃ m, nmF = remove_noise_from_class m 0) ∧
      (∀ i, i < nmF.length → 0 < (nmF.getD i []).length →
        Mat.entry nmF i 0 = if i = 0 then 1 else 0) :=
  fit_pulearning_identity_column env0 rp0 X2 s2 5 0 (some px2) none
    (some nmGood) (some imGood) "prune_by_noise_rate" "inverse_nm_dot_s" false
    (by decide) traceLeOne_nmGood traceLeOne_imGood

/-- C6: two instances sharing only the classifier and the seed (one fresh,
one carrying stale artifacts) produce identical artifacts on the same `fit`
call, and every artifact attribute (K, priors, noise matrix, inverse noise
matrix, confident joint, noise mask, sample weights) is assigned on every
successful call: nothing observable is carried over from a previous fit. -/
theorem fit_artifacts_recomputed_fresh
    (env : Env) (rpA rpB : RP) (X : List Feat) (s : List ℕ) (cv : ℕ)
    (pul : Option ℕ) (psx : Option Mat) (th : Option (List ℚ))
    (nm? inm? : Option Mat) (pm pcm : String) (conv : Bool)
    (hclf : rpA.clf = rpB.clf) (hseed : rpA.seed = rpB.seed)
    (hv : assert_inputs_are_valid X s psx = true)
    (h1 : traceLeOne nm? = false) (h2 : traceLeOne inm? = false) :
    ∃ rpF1 rpF2,
      (RankPruning.fit env rpA X s cv pul psx th nm? inm? pm pcm conv).2
        = Except.ok (rpF1, rpF1.clf) ∧
      (RankPruning.fit env rpB X s cv pul psx th nm? inm? pm pcm conv).2
        = Except.ok (rpF2, rpF2.clf) ∧
      (rpF1.K.isSome ∧ rpF1.ps.isSome ∧ rpF1.noise_matrix.isSome ∧
       rpF1.inverse_noise_matrix.isSome ∧ rpF1.confident_joint.isSome ∧
       rpF1.noise_mask.isSome ∧ rpF1.sample_weight.isSome) ∧
      (rpF1.K = rpF2.K ∧ rpF1.ps = rpF2.ps ∧
       rpF1.noise_matrix = rpF2.noise_matrix ∧
       rpF1.inverse_noise_matrix = rpF2.inverse_noise_matrix ∧
       rpF1.confident_joint = rpF2.confident_joint ∧
       rpF1.noise_mask = rpF2.noise_mask ∧
       rpF1.sample_weight = rpF2.sample_weight) := by
  rcases nm? with _ | nm <;> rcases inm? with _ | im <;>
    rcases psx with _ | px <;> rcases pul with _ | c <;>
    simp only [RankPruning.fit, hv, h1, h2, reduceIte] <;>
    exact ⟨_, _, rfl, rfl, by simp, by simp [hclf, hseed]⟩

/-- C6 witness: a fresh instance and one holding stale artifacts agree on
all artifacts of a concrete `fit` call. -/
theorem fit_artifacts_recomputed_fresh_witness :
    ∃ rpF1 rpF2,
      (RankPruning.fit env0 rp0 X2 s2 5 none (some px2) none (some nmGood)
          (some imGood) "prune_by_noise_rate" "inverse_nm_dot_s" false).2
        = Except.ok (rpF1, rpF1.clf) ∧
      (RankPruning.fit env0 rpStale X2 s2 5 none (some px2) none (some nmGood)
          (some imGood) "prune_by_noise_rate" "inverse_nm_dot_s" false).2
        = Except.ok (rpF2, rpF2.clf) ∧
      (rpF1.K.isSome ∧ rpF1.ps.isSome ∧ rpF1.noise_matrix.isSome ∧
       rpF1.inverse_noise_matrix.isSome ∧ rpF1.confident_joint.isSome ∧
       rpF1.noise_mask.isSome ∧ rpF1.sample_weight.isSome) ∧
      (rpF1.K = rpF2.K ∧ rpF1.ps = rpF2.ps ∧
       rpF1.noise_matrix = rpF2.noise_matrix ∧
       rpF1.inverse_noise_matrix = rpF2.inverse_noise_matrix ∧
       rpF1.confident_joint = rpF2.confident_joint ∧
       rpF1.noise_mask = rpF2.noise_mask ∧
       rpF1.sample_weight = rpF2.sample_weight) :=
  fit_artifacts_recomputed_fresh env0 rp0 rpStale X2 s2 5 none (some px2) none
    (some nmGood) (some imGood) "prune_by_noise_rate" "inverse_nm_dot_s" false
    rfl rfl (by decide) traceLeOne_nmGood traceLeOne_imGood

/-- C7: a successful `fit` returns exactly the stored classifier, trained by
the final delegated call on the pruned reweighted data, and `predict` /
`predict_proba` delegate directly to the classifier on the given features. -/
theorem fit_returns_clf_and_predict_delegates
    (env : Env) (rp : RP) (X : List Feat) (s : List ℕ) (cv : ℕ) (pul : Option ℕ)
    (psx : Option Mat) (th : Option (List ℚ)) (nm? inm? : Option Mat)
    (pm pcm : String) (conv : Bool)
    (hv : assert_inputs_are_valid X s psx = true)
    (h1 : traceLeOne nm? = false) (h2 : traceLeOne inm? = false) :
    (∃ (rpF : RP) (mask : List Bool),
      (RankPruning.fit env rp X s cv pul psx th nm? inm? pm pcm conv).2
        = Except.ok (rpF, rpF.clf) ∧
      rpF.clf = env.clfFit rp.clf (npBoolIndex X (mask.map (fun b => !b)))
        (npBoolIndex s (mask.map (fun b => !b)))
        (assignWeights (rpF.noise_matrix.getD []) s.dedup.length
          (npBoolIndex s (mask.map (fun b => !b))))) ∧
    (∀ rpq Xq, RankPruning.predict env rpq Xq = env.clfPredict rpq.clf Xq) ∧
    (∀ rpq Xq, RankPruning.predict_proba env rpq Xq
        = env.clfPredictProba rpq.clf Xq) := by
  refine ⟨?_, fun rpq Xq => rfl, fun rpq Xq => rfl⟩
  obtain ⟨rpF, mask, hok, hK, hmask, hprune, hw, hclf⟩ :=
    fit_success_fields env rp X s cv pul psx th nm? inm? pm pcm conv hv h1 h2
  exact ⟨rpF, mask, hok, hclf⟩

/-- C7 witness: the concrete run of the return-value and delegation
theorem. -/
theorem fit_returns_clf_and_predict_delegates_witness :
    (∃ (rpF : RP) (mask : List Bool),
      (RankPruning.fit env0 rp0 X2 s2 5 none (some px2) none (some nmGood)
          (some imGood) "prune_by_noise_rate" "inverse_nm_dot_s" false).2
        = Except.ok (rpF, rpF.clf) ∧
      rpF.clf = env0.clfFit rp0.clf (npBoolIndex X2 (mask.map (fun b => !b)))
        (npBoolIndex s2 (mask.map (fun b => !b)))
        (assignWeights (rpF.noise_matrix.getD []) s2.dedup.length
          (npBoolIndex s2 (mask.map (fun b => !b))))) ∧
    (∀ rpq Xq, RankPruning.predict env0 rpq Xq = env0.clfPredict rpq.clf Xq) ∧
    (∀ rpq Xq, RankPruning.predict_proba env0 rpq Xq
        = env0.clfPredictProba rpq.clf Xq) :=
  fit_returns_clf_and_predict_delegates env0 rp0 X2 s2 5 none (some px2) none
    (some nmGood) (some imGood) "prune_by_noise_rate" "inverse_nm_dot_s" false
    (by decide) traceLeOne_nmGood traceLeOne_imGood

/-- C8: with `pulearning = c` and both matrices supplied, only the noise
matrix is adjusted for the noise-free class; the stored inverse noise matrix
is exactly the supplied (unadjusted) one, and the pruning call receives that
unadjusted inverse noise matrix. -/
theorem fit_pulearning_inverse_passed_unadjusted
    (env : Env) (rp : RP) (X : List Feat) (s : List ℕ) (cv : ℕ) (c : ℕ)
    (px : Mat) (th : Option (List ℚ)) (nm im : Mat) (pm pcm : String) (conv : Bool)
    (hv : assert_inputs_are_valid X s (some px) = true)
    (h1 : traceLeOne (some nm) = false) (h2 : traceLeOne (some im) = false) :
    ∃ rpF,
      (RankPruning.fit env rp X s cv (some c) (some px) th (some nm) (some im)
          pm pcm conv).2
        = Except.ok (rpF, rpF.clf) ∧
      rpF.noise_matrix = some (remove_noise_from_class nm c) ∧
      rpF.inverse_noise_matrix = some im ∧
      rpF.noise_mask = some (env.getNoiseIndices s px im none pm pcm conv) := by
  simp only [RankPruning.fit, hv, h1, h2, reduceIte]
  exact ⟨_, rfl, rfl, rfl, rfl⟩

/-- C8 witness: the concrete PU-learning run in which the pruner is handed
the supplied, unadjusted inverse noise matrix. -/
theorem fit_pulearning_inverse_passed_unadjusted_witness :
    ∃ rpF,
      (RankPruning.fit env0 rp0 X2 s2 5 (some 0) (some px2) none (some nmGood)
          (some imGood) "prune_by_noise_rate" "inverse_nm_dot_s" false).2
        = Except.ok (rpF, rpF.clf) ∧
      rpF.noise_matrix = some (remove_noise_from_class nmGood 0) ∧
      rpF.inverse_noise_matrix = some imGood ∧
      rpF.noise_mask = some (env0.getNoiseIndices s2 px2 imGood none
        "prune_by_noise_rate" "inverse_nm_dot_s" false) :=
  fit_pulearning_inverse_passed_unadjusted env0 rp0 X2 s2 5 0 px2 none
    nmGood imGood "prune_by_noise_rate" "inverse_nm_dot_s" false
    (by decide) traceLeOne_nmGood traceLeOne_imGood

end Confident
